import Mathlib

/-!
Shallow embedding of `src/usecases/resume_mapper.py` (the group resolution
pipeline): alias expansion, batched paginated OpenSearch querying with
retry/backoff, verification chunking, membership insertion, checkpointing,
and the per-worker orchestration loop.

Python strings are modelled as lists of Unicode code points (`List Nat`);
the relevant Python string operations (`str.lower`, `str.strip`,
`str.translate` deleting `string.punctuation`, `str.isdigit`, `int(...)`)
are modelled on the ASCII range the pipeline manipulates.
-/

/-- A Python string, as its list of code points. -/
abbrev PyStr := List Nat

/-- Code points of a Lean string literal, for concrete examples. -/
def strToCodes (s : String) : PyStr := s.data.map Char.toNat

/-- `str.lower` on one code point (ASCII range: `A`–`Z` map to `a`–`z`). -/
def lowerChar (c : Nat) : Nat := if 65 ≤ c ∧ c ≤ 90 then c + 32 else c

/-- Membership in Python's whitespace class (ASCII): tab, LF, VT, FF, CR, space. -/
def isSpaceChar (c : Nat) : Bool := (9 ≤ c && c ≤ 13) || c == 32

/-- Membership in Python's `string.punctuation`:
code points 33–47, 58–64, 91–96, 123–126. -/
def isPunctChar (c : Nat) : Bool :=
  (33 ≤ c && c ≤ 47) || (58 ≤ c && c ≤ 64) || (91 ≤ c && c ≤ 96) || (123 ≤ c && c ≤ 126)

/-- `str.lower`. -/
def pyLower (s : PyStr) : PyStr := s.map lowerChar

/-- `str.strip()`: drop leading and trailing whitespace. -/
def pyStrip (s : PyStr) : PyStr :=
  List.rdropWhile isSpaceChar (s.dropWhile isSpaceChar)

/-- `str.translate(str.maketrans("", "", string.punctuation))`: delete all
punctuation code points. -/
def removePunct (s : PyStr) : PyStr := s.filter (fun c => !isPunctChar c)

/-- `generate_variations` (resume_mapper.py lines 53–60): the set
`{alias.lower().strip(), lowered-with-punctuation-deleted-then-stripped}`. -/
def generate_variations (s : PyStr) : Finset PyStr :=
  let lowered := pyStrip (pyLower s)
  let cleaned := pyStrip (removePunct lowered)
  insert lowered {cleaned}

/-- The variation-set accumulation of `process_group` (lines 175–178):
for each truthy (non-empty) alias, union in its variations. -/
def expandAliases (aliases : List PyStr) : Finset PyStr :=
  aliases.foldl (fun acc a => if a ≠ [] then acc ∪ generate_variations a else acc) ∅

section StringLemmas

theorem lowerChar_idem (c : Nat) : lowerChar (lowerChar c) = lowerChar c := by
  unfold lowerChar; split_ifs <;> omega

theorem isSpaceChar_lowerChar (c : Nat) : isSpaceChar (lowerChar c) = isSpaceChar c := by
  unfold lowerChar
  split_ifs with h
  · have h1 : isSpaceChar (c + 32) = false := by simp [isSpaceChar]; omega
    have h2 : isSpaceChar c = false := by simp [isSpaceChar]; omega
    rw [h1, h2]
  · rfl

theorem isPunctChar_lowerChar (c : Nat) : isPunctChar (lowerChar c) = isPunctChar c := by
  unfold lowerChar
  split_ifs with h
  · have h1 : isPunctChar (c + 32) = false := by simp [isPunctChar]; omega
    have h2 : isPunctChar c = false := by simp [isPunctChar]; omega
    rw [h1, h2]
  · rfl

theorem dropWhile_map_comm (f : Nat → Nat) (p : Nat → Bool)
    (hp : ∀ c, p (f c) = p c) (l : List Nat) :
    List.dropWhile p (l.map f) = (List.dropWhile p l).map f := by
  induction l with
  | nil => rfl
  | cons a l ih =>
      simp only [List.map_cons, List.dropWhile_cons, hp a]
      split <;> simp [ih]

theorem rdropWhile_map_comm (f : Nat → Nat) (p : Nat → Bool)
    (hp : ∀ c, p (f c) = p c) (l : List Nat) :
    List.rdropWhile p (l.map f) = (List.rdropWhile p l).map f := by
  unfold List.rdropWhile
  rw [← List.map_reverse, dropWhile_map_comm f p hp, List.map_reverse]

theorem pyStrip_map_comm (f : Nat → Nat) (hf : ∀ c, isSpaceChar (f c) = isSpaceChar c)
    (l : PyStr) : pyStrip (l.map f) = (pyStrip l).map f := by
  unfold pyStrip
  rw [dropWhile_map_comm f _ hf, rdropWhile_map_comm f _ hf]

theorem filter_map_comm (f : Nat → Nat) (p : Nat → Bool)
    (hp : ∀ c, p (f c) = p c) (l : List Nat) :
    (l.map f).filter p = (l.filter p).map f := by
  induction l with
  | nil => rfl
  | cons a l ih =>
      simp only [List.map_cons, List.filter_cons, hp a]
      split <;> simp [ih]

theorem pyLower_pyStrip_comm (l : PyStr) : pyLower (pyStrip l) = pyStrip (pyLower l) :=
  (pyStrip_map_comm lowerChar isSpaceChar_lowerChar l).symm

theorem pyLower_removePunct_comm (l : PyStr) :
    pyLower (removePunct l) = removePunct (pyLower l) := by
  unfold pyLower removePunct
  rw [filter_map_comm lowerChar _ (fun c => by rw [isPunctChar_lowerChar]) l]

theorem pyLower_idem (l : PyStr) : pyLower (pyLower l) = pyLower l := by
  simp [pyLower, List.map_map, Function.comp_def, lowerChar_idem]

/-- The from-the-left part of `pyStrip` leaves a list whose head (if any)
fails the whitespace test, so a second left-drop is the identity. -/
theorem dropWhile_rdropWhile_dropWhile (p : Nat → Bool) (l : List Nat) :
    List.dropWhile p (List.rdropWhile p (List.dropWhile p l)) =
      List.rdropWhile p (List.dropWhile p l) := by
  rw [List.dropWhile_eq_self_iff]
  intro hl
  have hpre : List.rdropWhile p (List.dropWhile p l) <+: List.dropWhile p l :=
    List.rdropWhile_prefix p _
  have hlen : 0 < (List.dropWhile p l).length :=
    lt_of_lt_of_le hl hpre.length_le
  have hget := hpre.getElem hl
  have hhead := List.dropWhile_get_zero_not p l hlen
  simpa [List.get_eq_getElem, hget] using hhead

theorem pyStrip_idem (l : PyStr) : pyStrip (pyStrip l) = pyStrip l := by
  unfold pyStrip
  rw [dropWhile_rdropWhile_dropWhile, List.rdropWhile_idempotent]

theorem mem_pyStrip (l : PyStr) (x : Nat) (hx : x ∈ pyStrip l) : x ∈ l := by
  unfold pyStrip at hx
  exact List.dropWhile_suffix isSpaceChar |>.subset
    ( (List.rdropWhile_prefix isSpaceChar _).subset hx)

theorem removePunct_of_noPunct (l : PyStr) (h : ∀ x ∈ l, isPunctChar x = false) :
    removePunct l = l := by
  unfold removePunct
  exact List.filter_eq_self.mpr (fun a ha => by simp [h a ha])

theorem pyStrip_all_space (l : PyStr) (h : ∀ x ∈ l, isSpaceChar x = true) :
    pyStrip l = [] := by
  unfold pyStrip
  rw [List.dropWhile_eq_nil_iff.mpr (fun x hx => h x hx)]
  simp [List.rdropWhile]

theorem pyStrip_no_space (l : PyStr) (h : ∀ x ∈ l, isSpaceChar x = false) :
    pyStrip l = l := by
  unfold pyStrip
  have h1 : List.dropWhile isSpaceChar l = l := by
    rw [List.dropWhile_eq_self_iff]
    intro hl
    rw [h _ (List.get_mem l 0 hl)]
    simp
  rw [h1, List.rdropWhile_eq_self_iff]
  intro hl
  rw [h _ (List.getLast_mem hl)]
  simp

end StringLemmas

/-!
### Checkpoint Store

`PROCESSED_FILE` is modelled as its list of lines (each a `PyStr`).
`mark_processed` (lines 153–157) appends the decimal rendering of the group
ID as a new line; the startup load (lines 43–47) rebuilds the in-memory set
from the lines that are all-digits after stripping.
-/

/-- Python `str(n)` for a natural number: decimal digit characters. -/
def strPy (n : Nat) : PyStr :=
  if n = 0 then [48] else ((Nat.digits 10 n).map (fun d => 48 + d)).reverse

/-- Python `str.isdigit()` restricted to ASCII digits. -/
def isdigitStr (l : PyStr) : Bool := !l.isEmpty && l.all (fun c => 48 ≤ c && c ≤ 57)

/-- Python `int(...)` on a string of decimal digit characters. -/
def parseNat (l : PyStr) : Nat := Nat.ofDigits 10 ((l.map (fun c => c - 48)).reverse)

/-- `mark_processed` (lines 153–157): append `f"{groupid}\n"` to the
checkpoint file, i.e. one new line holding the decimal group ID.  (The
`insert_lock` serializes these appends; the file is modelled as the
resulting list of lines.) -/
def mark_processed (file : List PyStr) (groupid : Nat) : List PyStr :=
  file ++ [strPy groupid]

/-- The startup load (lines 43–47):
`set(int(line.strip()) for line in f if line.strip().isdigit())`. -/
def load_processed (file : List PyStr) : Finset Nat :=
  (file.filterMap fun line =>
    if isdigitStr (pyStrip line) then some (parseNat (pyStrip line)) else none).toFinset

section CheckpointLemmas

theorem strPy_digits (n : Nat) : ∀ c ∈ strPy n, 48 ≤ c ∧ c ≤ 57 := by
  intro c hc
  unfold strPy at hc
  split at hc
  · simp at hc; omega
  · simp only [List.mem_reverse, List.mem_map] at hc
    obtain ⟨d, hd, rfl⟩ := hc
    have := Nat.digits_lt_base (by norm_num) hd
    omega

theorem strPy_ne_nil (n : Nat) : strPy n ≠ [] := by
  unfold strPy
  split
  · simp
  · simp [Nat.digits_ne_nil_iff_ne_zero, *]

theorem parseNat_strPy (n : Nat) : parseNat (strPy n) = n := by
  unfold parseNat strPy
  split
  · subst n
    simp [Nat.ofDigits]
  · rw [← List.map_reverse, List.reverse_reverse, List.map_map]
    have : (Nat.digits 10 n).map ((fun c => c - 48) ∘ fun d => 48 + d) =
        (Nat.digits 10 n).map id := by
      apply List.map_congr_left
      intro d _
      simp
    rw [this, List.map_id, Nat.ofDigits_digits]

theorem pyStrip_strPy (n : Nat) : pyStrip (strPy n) = strPy n := by
  apply pyStrip_no_space
  intro x hx
  have := strPy_digits n x hx
  simp [isSpaceChar]
  omega

theorem isdigitStr_strPy (n : Nat) : isdigitStr (strPy n) = true := by
  unfold isdigitStr
  simp only [Bool.and_eq_true, List.all_eq_true]
  refine ⟨by simp [strPy_ne_nil n], fun c hc => ?_⟩
  have := strPy_digits n c hc
  simp
  omega

end CheckpointLemmas

/-!
### Verifier

`verify_candidateids` (lines 136–146) walks the candidate list in chunks of
`batch_size = 5000`; each chunk is one parameterized
`SELECT id FROM applicants WHERE id IN (...) AND is_verified=1` query whose
result set it unions into `verified`.  The cursor is modelled as a function
from the chunk to the query outcome (`Except` to model store errors); the
authoritative-store semantics of the `SELECT` is `pureQuery`.
-/

/-- One chunked verification step: `batch = candidateids[i:i+5000]`, a query
on the batch, union the rows into the accumulator, move to the next chunk.
A store error propagates (the Python code has no handler here). -/
def verifyAux (runQ : List Int → Except Unit (Finset Int)) :
    List Int → Finset Int → Except Unit (Finset Int)
  | [], acc => .ok acc
  | a :: t, acc =>
    match runQ ((a :: t).take 5000) with
    | .error e => .error e
    | .ok s => verifyAux runQ ((a :: t).drop 5000) (acc ∪ s)
termination_by l => l.length
decreasing_by simp; omega

/-- `verify_candidateids` (lines 136–146). -/
def verify_candidateids (runQ : List Int → Except Unit (Finset Int))
    (candidateids : List Int) : Except Unit (Finset Int) :=
  verifyAux runQ candidateids ∅

/-- Semantics of one `SELECT id FROM applicants WHERE id IN (batch) AND
is_verified=1` query against a reachable store: the rows of the batch whose
`is_verified` flag is set (`ver` folds together presence in `applicants`
and the flag). -/
def pureQuery (ver : Int → Bool) : List Int → Except Unit (Finset Int) :=
  fun chunk => .ok (chunk.filter ver).toFinset

theorem verifyAux_pure (ver : Int → Bool) :
    ∀ (n : Nat) (l : List Int), l.length ≤ n → ∀ acc,
      verifyAux (pureQuery ver) l acc = .ok (acc ∪ (l.filter ver).toFinset) := by
  intro n
  induction n with
  | zero =>
      intro l hl acc
      have : l = [] := List.length_eq_zero.mp (Nat.le_zero.mp hl)
      subst this
      simp [verifyAux]
  | succ n ih =>
      intro l hl acc
      match l with
      | [] => simp [verifyAux]
      | a :: t =>
          rw [verifyAux]
          simp only [pureQuery]
          rw [ih ((a :: t).drop 5000) (by simp at hl ⊢; omega)]
          have hsplit : ((a :: t).take 5000).filter ver ++ ((a :: t).drop 5000).filter ver
              = (a :: t).filter ver := by
            rw [← List.filter_append, List.take_append_drop]
          have : (((a :: t).take 5000).filter ver).toFinset ∪
              (((a :: t).drop 5000).filter ver).toFinset = ((a :: t).filter ver).toFinset := by
            rw [← List.toFinset_append, hsplit]
          rw [Finset.union_assoc, this]

theorem verify_candidateids_pure (ver : Int → Bool) (l : List Int) :
    verify_candidateids (pureQuery ver) l = .ok (l.filter ver).toFinset := by
  unfold verify_candidateids
  rw [verifyAux_pure ver l.length l le_rfl ∅, Finset.empty_union]


/-!
### Search Gateway

`search_batch` (lines 72–134).  The HTTP layer is modelled by a list of
predetermined request outcomes (`net`), consumed one per request in program
order, and by a stream of random draws (`rand`) consumed by
`random.choice`.  A `ReqOutcome.fail` is any `requests.exceptions.
RequestException` (timeout, connection error, or the non-2xx statuses that
`raise_for_status` turns into exceptions); `ReqOutcome.ok body` is a 2xx
response whose JSON parse is `body` (`none` = malformed body, so `.json()`
raises).  The run records the result, the `time.sleep` durations, and every
request made (its node port and path), plus the query body built once from
the batch.
-/

/-- One OpenSearch hit, as the fields the code reads: `none` = the hit has
no `_source` key (so `hit["_source"]` raises `KeyError`); `some none` =
`_source` present but without `candidateid` (the hit is skipped);
`some (some i)` = candidate ID `i`. -/
abbrev Hit := Option (Option Int)

/-- The JSON body of a search/scroll response, as the fields the code
reads: `result.get("_scroll_id")` and `result.get("hits", {}).get("hits",
[])`. -/
structure SearchResp where
  scrollId : Option Nat
  hits : List Hit
deriving DecidableEq

/-- Outcome of one HTTP request. -/
inductive ReqOutcome where
  | fail
  | ok (body : Option SearchResp)
deriving DecidableEq

/-- An exception escaping `search_batch`. -/
inductive PyErr where
  | keyError
  | jsonError
deriving DecidableEq

/-- Which endpoint path a request went to. -/
inductive ReqPath where
  | searchPath
  | scrollPath
deriving DecidableEq

/-- A request on the wire: the node port it was sent to and its path. -/
abbrev Req := Nat × ReqPath

/-- `get_opensearch_url` (lines 49–51): `random.choice(NODE_PORTS)` with
`NODE_PORTS = list(range(9500, 9541))`, modelled on one uniform draw `r`;
the URL is `http://localhost:{port}/`, so the port identifies it. -/
def get_opensearch_url (r : Nat) : Nat := 9500 + r % 41

/-- One `{"match_phrase": {"resume": v}}` clause. -/
structure MatchPhrase where
  resume : PyStr
deriving DecidableEq

/-- `should_clauses` (line 75): one match-phrase clause per variation. -/
def should_clauses (batch : List PyStr) : List MatchPhrase :=
  batch.map MatchPhrase.mk

/-- The query body built at lines 76–85. -/
structure Query where
  size : Nat
  should : List MatchPhrase
  minimumShouldMatch : Nat
  sourceFields : List PyStr
deriving DecidableEq

def mkQuery (batch : List PyStr) : Query :=
  ⟨2000, should_clauses batch, 1, [strToCodes "candidateid"]⟩

/-- `set(hit["_source"]["candidateid"] for hit in hits if "candidateid" in
hit["_source"])` (lines 105 and 132): a hit without `_source` raises
`KeyError`; a hit whose `_source` lacks `candidateid` is skipped. -/
def extractIds : List Hit → Except PyErr (Finset Int)
  | [] => .ok ∅
  | none :: _ => .error .keyError
  | some none :: t => extractIds t
  | some (some i) :: t => (extractIds t).map (insert i)

/-- Result of one `for attempt in range(max_retries)` retry loop:
`success = some body` when some attempt got a 2xx response (whose JSON
parse is `body`), `none` when retries were exhausted; `rest` is the
unconsumed network tape, `sleeps` the backoff waits, `nreq` the number of
requests issued. -/
structure RetryRes where
  success : Option (Option SearchResp)
  rest : List ReqOutcome
  sleeps : List Nat
  nreq : Nat

/-- The retry loop body (lines 88–100 and 109–125): attempt `a` next,
`left` attempts remaining; on failure with attempts remaining, sleep
`2 ** attempt` and try again. -/
def retryAux (a : Nat) : Nat → List ReqOutcome → RetryRes
  | 0, net => ⟨none, net, [], 0⟩
  | _ + 1, [] => ⟨none, [], [], 0⟩
  | left + 1, o :: rest =>
    match o with
    | .ok body => ⟨some body, rest, [], 1⟩
    | .fail =>
      if left = 0 then ⟨none, rest, [], 1⟩
      else
        let r := retryAux (a + 1) left rest
        ⟨r.success, r.rest, 2 ^ a :: r.sleeps, r.nreq + 1⟩

/-- A full retry loop with the default `max_retries=5`, attempts 0–4. -/
def retry5 (net : List ReqOutcome) : RetryRes := retryAux 0 5 net

theorem retryAux_rest_length_le (a left : Nat) (net : List ReqOutcome) :
    (retryAux a left net).rest.length ≤ net.length := by
  induction left generalizing a net with
  | zero => simp [retryAux]
  | succ left ih =>
      match net with
      | [] => simp [retryAux]
      | o :: rest =>
          match o with
          | .ok body => simp [retryAux]
          | .fail =>
              by_cases hl : left = 0
              · simp [retryAux, hl]
              · simp only [retryAux, if_neg hl]
                exact le_trans (ih (a + 1) rest) (by simp)

theorem retryAux_rest_lt_of_success (a left : Nat) (net : List ReqOutcome)
    (b : Option SearchResp) (h : (retryAux a left net).success = some b) :
    (retryAux a left net).rest.length < net.length := by
  induction left generalizing a net with
  | zero => simp [retryAux] at h
  | succ left ih =>
      match net with
      | [] => simp [retryAux] at h
      | o :: rest =>
          match o with
          | .ok body =>
              simp [retryAux]
          | .fail =>
              by_cases hl : left = 0
              · simp [retryAux, hl] at h
              · simp only [retryAux, if_neg hl] at h ⊢
                exact lt_of_lt_of_le (ih (a + 1) rest h) (by simp)

deriving instance DecidableEq for Except

/-- Aggregate of a (partial) `search_batch` run: the final result (or the
exception escaping it), the sleeps performed, and the requests issued. -/
structure SBPart where
  result : Except PyErr (Finset Int)
  sleeps : List Nat
  reqs : List Req
deriving DecidableEq

/-- The scroll loop, lines 107–132: `while hits:` retry the continuation
request (exhaustion returns what was collected so far), re-parse, stop on
an empty page, otherwise accumulate the page's candidate IDs and continue.
(`scroll_id` only feeds the request body, which the network tape already
abstracts.) -/
def scrollLoop (port : Nat) (cands : Finset Int) (net : List ReqOutcome) : SBPart :=
  match hs : (retry5 net).success with
  | none =>
      ⟨.ok cands, (retry5 net).sleeps, List.replicate (retry5 net).nreq (port, ReqPath.scrollPath)⟩
  | some none =>
      ⟨.error .jsonError, (retry5 net).sleeps,
        List.replicate (retry5 net).nreq (port, ReqPath.scrollPath)⟩
  | some (some resp) =>
      if resp.hits = [] then
        ⟨.ok cands, (retry5 net).sleeps, List.replicate (retry5 net).nreq (port, ReqPath.scrollPath)⟩
      else
        match extractIds resp.hits with
        | .error e =>
            ⟨.error e, (retry5 net).sleeps,
              List.replicate (retry5 net).nreq (port, ReqPath.scrollPath)⟩
        | .ok s =>
            let tail := scrollLoop port (cands ∪ s) (retry5 net).rest
            ⟨tail.result, (retry5 net).sleeps ++ tail.sleeps,
              List.replicate (retry5 net).nreq (port, ReqPath.scrollPath) ++ tail.reqs⟩
termination_by net.length
decreasing_by exact retryAux_rest_lt_of_success 0 5 net _ hs

/-- A full `search_batch` run (lines 72–134): the query sent plus the run
aggregate. -/
structure SBRun where
  part : SBPart
  sent : Query
deriving DecidableEq

/-- `search_batch` (lines 72–134): pick the node once, build the query,
retry the initial search (exhaustion returns `[]`), parse, extract the
first page's candidate IDs, then scroll. -/
def search_batch (batch : List PyStr) (rand : List Nat) (net : List ReqOutcome) : SBRun :=
  let port := get_opensearch_url (rand.headD 0)
  let query := mkQuery batch
  match (retry5 net).success with
  | none =>
      ⟨⟨.ok ∅, (retry5 net).sleeps, List.replicate (retry5 net).nreq (port, ReqPath.searchPath)⟩,
        query⟩
  | some none =>
      ⟨⟨.error .jsonError, (retry5 net).sleeps,
        List.replicate (retry5 net).nreq (port, ReqPath.searchPath)⟩, query⟩
  | some (some resp) =>
      match extractIds resp.hits with
      | .error e =>
          ⟨⟨.error e, (retry5 net).sleeps,
            List.replicate (retry5 net).nreq (port, ReqPath.searchPath)⟩, query⟩
      | .ok s =>
          if resp.hits = [] then
            ⟨⟨.ok s, (retry5 net).sleeps,
              List.replicate (retry5 net).nreq (port, ReqPath.searchPath)⟩, query⟩
          else
            let tail := scrollLoop port s (retry5 net).rest
            ⟨⟨tail.result, (retry5 net).sleeps ++ tail.sleeps,
              List.replicate (retry5 net).nreq (port, ReqPath.searchPath) ++ tail.reqs⟩, query⟩

/-!
### Pipeline orchestration

`process_group` (lines 159–206): one worker's loop.  Store interactions go
through an environment of per-call outcomes (`Except Unit` models the
exception a `mysql.connector` call or a nested `search_batch` can raise —
the Python body has no try/except, so any such exception propagates out of
the loop and kills the worker thread).  The worker state records the
checkpoint-file lines, the durably committed `group_members` rows, the
rows inserted but not yet committed on this connection, and an event trace
(one event per pipeline stage execution) used to state the ordering
guarantees.
-/

/-- Pipeline-stage events, tagged with the group being processed. -/
inductive Ev where
  | searchEv (g : Nat)
  | verifyEv (g : Nat)
  | insertEv (g : Nat)
  | commitEv (g : Nat)
  | markEv (g : Nat)
deriving DecidableEq

/-- Worker-visible persistent/connection state. -/
structure WSt where
  file : List PyStr
  committed : Finset (Nat × Int)
  pending : Finset (Nat × Int)
  trace : List Ev
deriving DecidableEq

/-- Outcomes of the store/search interactions of one run:
`processed0` is the `processed_groups` set loaded at startup;
`fetch` is `fetch_aliases`; `searchB` the result of one `search_batch`
call (it returns `list(candidateids)`, or raises — see `search_batch`);
`verifyQ` one chunked verification `SELECT`; `insertQ` the `executemany`
`INSERT IGNORE`; `commitQ` the `conn.commit()`. -/
structure Env where
  processed0 : Finset Nat
  fetch : Nat → Except Unit (List PyStr)
  searchB : List PyStr → Except Unit (List Int)
  verifyQ : List Int → Except Unit (Finset Int)
  insertQ : Nat → Finset Int → Except Unit Unit
  commitQ : Nat → Except Unit Unit

/-- The variation list a group's aliases expand to: `list(variations)`
for the set built at lines 175–178, enumerated in insertion order with
duplicates removed (Python's set iteration order is unspecified; any
definite order is a faithful instance). -/
def expandList (aliases : List PyStr) : List PyStr :=
  ((aliases.filter (fun a => a ≠ [])).flatMap
    (fun a => [pyStrip (pyLower a), pyStrip (removePunct (pyStrip (pyLower a)))])).dedup

/-- The batched search loop (lines 183–192): take the next 50 variations,
run `search_batch` on them (one `searchEv`), add the returned candidate
IDs to the `candidateids` set, continue; an exception from `search_batch`
propagates.  The growing set (and the later `list(candidateids)`) is
modelled as a duplicate-free list in a definite order (`List.union`);
Python's set iteration order is unspecified, so any definite order is a
faithful instance. -/
def searchLoop (env : Env) (g : Nat) :
    List PyStr → List Int → List Ev → List Ev × Except Unit (List Int)
  | [], acc, tr => (tr, .ok acc)
  | v :: vs, acc, tr =>
    match env.searchB ((v :: vs).take 50) with
    | .error e => (tr ++ [Ev.searchEv g], .error e)
    | .ok s => searchLoop env g ((v :: vs).drop 50) (acc.union s) (tr ++ [Ev.searchEv g])
termination_by l => l.length
decreasing_by simp; omega

/-- The rows `insert_group_members` (lines 148–151) writes for a group:
`(candidateid, groupid)` pairs, at most once each (`INSERT IGNORE`). -/
def memberRows (g : Nat) (verified : Finset Int) : Finset (Nat × Int) :=
  verified.image (fun c => (g, c))

/-- The body of one group's run (lines 173–201): fetch aliases, expand,
batched search, verify, insert, commit, mark processed.  Any store/search
exception aborts the body at that point, leaving the state reached so far
(`some e`); there is no handler. -/
def runOne (env : Env) (st : WSt) (g : Nat) : WSt × Option Unit :=
  match env.fetch g with
  | .error e => (st, some e)
  | .ok aliases =>
    match searchLoop env g (expandList aliases) [] [] with
    | (tr, .error e) => ({ st with trace := st.trace ++ tr }, some e)
    | (tr, .ok candidateids) =>
      let st1 : WSt := { st with trace := st.trace ++ tr ++ [Ev.verifyEv g] }
      match verify_candidateids env.verifyQ candidateids with
      | .error e => (st1, some e)
      | .ok verified =>
        let st2 : WSt := { st1 with trace := st1.trace ++ [Ev.insertEv g] }
        match env.insertQ g verified with
        | .error e => (st2, some e)
        | .ok _ =>
          let st3 : WSt := { st2 with
            pending := st2.pending ∪ memberRows g verified,
            trace := st2.trace ++ [Ev.commitEv g] }
          match env.commitQ g with
          | .error e => (st3, some e)
          | .ok _ =>
            ({ st3 with
                committed := st3.committed ∪ st3.pending,
                pending := ∅,
                file := mark_processed st3.file g,
                trace := st3.trace ++ [Ev.markEv g] }, none)

/-- The worker loop of `process_group` (lines 163–203): drain the queue;
skip groups already in the startup `processed_groups` set; run the body
for the rest.  An exception from the body propagates out of the loop
(killing this worker), so the remaining queued groups are not touched by
this worker. -/
def process_group (env : Env) : WSt → List Nat → WSt × Option Unit
  | st, [] => (st, none)
  | st, g :: rest =>
    if g ∈ env.processed0 then process_group env st rest
    else
      match runOne env st g with
      | (st', none) => process_group env st' rest
      | (st', some e) => (st', some e)

/-!
### Shared helper lemmas for the claims
-/

theorem search_batch_sent (batch : List PyStr) (rand : List Nat) (net : List ReqOutcome) :
    (search_batch batch rand net).sent = mkQuery batch := by
  unfold search_batch
  rcases h : (retry5 net).success with _ | b
  · rfl
  · rcases b with _ | resp
    · rfl
    · by_cases hh : resp.hits = []
      · simp [hh, extractIds]
      · rcases hex : extractIds resp.hits with e | s
        · simp [hex]
        · simp [hex, hh]

theorem mem_expandAliases_aux (A : List PyStr) (acc : Finset PyStr) (x : PyStr) :
    x ∈ A.foldl (fun acc a => if a ≠ [] then acc ∪ generate_variations a else acc) acc ↔
      x ∈ acc ∨ ∃ a ∈ A, a ≠ [] ∧ x ∈ generate_variations a := by
  induction A generalizing acc with
  | nil => simp
  | cons a A ih =>
      rw [List.foldl_cons]
      by_cases ha : a = []
      · rw [if_neg (by simp [ha]), ih]
        constructor
        · rintro (h | h)
          · exact Or.inl h
          · rcases h with ⟨b, hb, hne, hbx⟩
            exact Or.inr ⟨b, List.mem_cons_of_mem a hb, hne, hbx⟩
        · rintro (h | ⟨b, hb, hne, hbx⟩)
          · exact Or.inl h
          · rcases List.mem_cons.mp hb with rfl | hb'
            · exact absurd ha hne
            · exact Or.inr ⟨b, hb', hne, hbx⟩
      · rw [if_pos ha, ih]
        constructor
        · rintro (h | h)
          · rcases Finset.mem_union.mp h with h' | h'
            · exact Or.inl h'
            · exact Or.inr ⟨a, List.mem_cons_self a A, ha, h'⟩
          · rcases h with ⟨b, hb, hne, hbx⟩
            exact Or.inr ⟨b, List.mem_cons_of_mem a hb, hne, hbx⟩
        · rintro (h | ⟨b, hb, hne, hbx⟩)
          · exact Or.inl (Finset.mem_union_left _ h)
          · rcases List.mem_cons.mp hb with rfl | hb'
            · exact Or.inl (Finset.mem_union_right _ hbx)
            · exact Or.inr ⟨b, hb', hne, hbx⟩

theorem mem_expandAliases (A : List PyStr) (x : PyStr) :
    x ∈ expandAliases A ↔ ∃ a ∈ A, a ≠ [] ∧ x ∈ generate_variations a := by
  unfold expandAliases
  rw [mem_expandAliases_aux]
  simp

theorem gv_of_lowered (s : PyStr) :
    generate_variations (pyStrip (pyLower s)) = generate_variations s := by
  unfold generate_variations
  have h1 : pyLower (pyStrip (pyLower s)) = pyStrip (pyLower s) := by
    rw [pyLower_pyStrip_comm, pyLower_idem]
  rw [h1, pyStrip_idem]

theorem pyLower_cleaned (s : PyStr) :
    pyLower (pyStrip (removePunct (pyStrip (pyLower s)))) =
      pyStrip (removePunct (pyStrip (pyLower s))) := by
  rw [pyLower_pyStrip_comm, pyLower_removePunct_comm, pyLower_pyStrip_comm, pyLower_idem]

theorem gv_of_cleaned (s : PyStr) :
    generate_variations (pyStrip (removePunct (pyStrip (pyLower s)))) =
      {pyStrip (removePunct (pyStrip (pyLower s)))} := by
  have hnp : removePunct (pyStrip (removePunct (pyStrip (pyLower s)))) =
      pyStrip (removePunct (pyStrip (pyLower s))) := by
    apply removePunct_of_noPunct
    intro x hx
    have hx' := mem_pyStrip _ _ hx
    simpa [removePunct] using (List.mem_filter.mp hx').2
  simp only [generate_variations]
  rw [pyLower_cleaned, pyStrip_idem, hnp, pyStrip_idem]
  exact Finset.insert_eq_self.mpr (Finset.mem_singleton_self _)

/-!
### The claims
-/

/-- **C6, counterexample.**  The claim states that expanding the aliases
`["ABC Institute", "abc-institute!"]` yields, after normalization, exactly
`{"abc institute", "abcinstitute"}`.  On the code this is false:
`generate_variations` also keeps the merely lowered (punctuation-bearing)
variant `"abc-institute!"` in the set. -/
theorem C6_cex :
    expandAliases [strToCodes "ABC Institute", strToCodes "abc-institute!"] ≠
      {strToCodes "abc institute", strToCodes "abcinstitute"} := by decide

/-- **C6, amended.**  Expanding `["ABC Institute", "abc-institute!"]`
yields exactly the three variations
`{"abc institute", "abc-institute!", "abcinstitute"}`: the lowered form of
each alias and the punctuation-stripped form of each. -/
theorem C6_thm :
    expandAliases [strToCodes "ABC Institute", strToCodes "abc-institute!"] =
      {strToCodes "abc institute", strToCodes "abc-institute!", strToCodes "abcinstitute"} := by
  decide

/-- **C9.**  If `mark_processed(g)` returns successfully (appending the
line `g` to the checkpoint file), the startup reconstruction of the
processed set from that file contains `g`. -/
theorem C9_thm (file : List PyStr) (g : Nat) :
    g ∈ load_processed (mark_processed file g) := by
  unfold load_processed mark_processed
  rw [List.mem_toFinset, List.mem_filterMap]
  refine ⟨strPy g, by simp, ?_⟩
  rw [pyStrip_strPy, if_pos (isdigitStr_strPy g), parseNat_strPy]

/-- **C7.**  `verify_candidateids` against a reachable store: it chunks
its input (at most 5000 IDs per query — see its definition), returns the
union of the per-chunk verified rows, which equals the verified subset of
the input (so output ⊆ input: it never invents IDs), and the returned set
is unchanged under any reordering of the input list. -/
theorem C7_thm (ver : Int → Bool) (l l' : List Int) (hperm : l.Perm l') :
    verify_candidateids (pureQuery ver) l = .ok (l.filter ver).toFinset
    ∧ (l.filter ver).toFinset ⊆ l.toFinset
    ∧ verify_candidateids (pureQuery ver) l' = .ok (l.filter ver).toFinset := by
  refine ⟨verify_candidateids_pure ver l, ?_, ?_⟩
  · intro x hx
    rw [List.mem_toFinset, List.mem_filter] at hx
    exact List.mem_toFinset.mpr hx.1
  · rw [verify_candidateids_pure ver l']
    have : (l'.filter ver).toFinset = (l.filter ver).toFinset := by
      ext a
      simp [List.mem_filter, hperm.mem_iff]
    rw [this]

/-- **C7, witness** at `ver = (· == 3)`, `l = [3, 4]`, `l' = [4, 3]`. -/
theorem C7_wit :
    verify_candidateids (pureQuery (fun x => x == 3)) [3, 4] =
      .ok (([3, 4].filter (fun x => x == 3)).toFinset)
    ∧ (([3, 4].filter (fun x => x == 3)).toFinset) ⊆ ([3, 4] : List Int).toFinset
    ∧ verify_candidateids (pureQuery (fun x => x == 3)) [4, 3] =
      .ok (([3, 4].filter (fun x => x == 3)).toFinset) :=
  C7_thm (fun x => x == 3) [3, 4] [4, 3] (by decide)

/-- **C10.**  (i) For every non-empty alias consisting only of punctuation
and/or whitespace, `generate_variations` returns a set containing the
empty string (the lowered form survives, the cleaned form strips to
nothing); (ii) every variation of a batch — the empty string included —
becomes one `{"match_phrase": {"resume": v}}` should-clause; (iii) the
query `search_batch` sends is built from exactly those clauses. -/
theorem C10_thm :
    (∀ a : PyStr, a ≠ [] → (∀ c ∈ a, isPunctChar c = true ∨ isSpaceChar c = true) →
      ([] : PyStr) ∈ generate_variations a)
    ∧ (∀ batch : List PyStr, ∀ v ∈ batch, MatchPhrase.mk v ∈ should_clauses batch)
    ∧ (∀ (batch : List PyStr) (rand : List Nat) (net : List ReqOutcome),
        (search_batch batch rand net).sent = mkQuery batch) := by
  refine ⟨?_, ?_, search_batch_sent⟩
  · intro a _ hc
    have hlower : pyLower a = a := by
      unfold pyLower
      have hid : ∀ c ∈ a, lowerChar c = c := by
        intro c hc'
        have hno : ¬(65 ≤ c ∧ c ≤ 90) := by
          rcases hc c hc' with h | h <;> simp [isPunctChar, isSpaceChar] at h <;> omega
        simp [lowerChar, hno]
      calc a.map lowerChar = a.map id := List.map_congr_left hid
        _ = a := List.map_id a
    have hclean : pyStrip (removePunct (pyStrip (pyLower a))) = [] := by
      rw [hlower]
      apply pyStrip_all_space
      intro x hx
      rw [removePunct, List.mem_filter] at hx
      have hxa : x ∈ a := mem_pyStrip _ _ hx.1
      rcases hc x hxa with h | h
      · rw [h] at hx
        simp at hx
      · exact h
    simp only [generate_variations]
    rw [hclean]
    exact Finset.mem_insert_of_mem (Finset.mem_singleton_self _)
  · intro batch v hv
    simp only [should_clauses, List.mem_map]
    exact ⟨v, hv, rfl⟩

/-- **C10, witness** at the alias `"!!!"` and a batch containing the empty
string. -/
theorem C10_wit :
    ([] : PyStr) ∈ generate_variations (strToCodes "!!!")
    ∧ MatchPhrase.mk [] ∈ should_clauses [[], strToCodes "x"]
    ∧ (search_batch [[]] [0] []).sent = mkQuery [[]] :=
  ⟨C10_thm.1 (strToCodes "!!!") (by decide) (by decide),
   C10_thm.2.1 [[], strToCodes "x"] [] (by decide),
   C10_thm.2.2 [[]] [0] []⟩

/-- **C8.**  Alias expansion is deterministic (equal alias inputs give
equal variation sets), and idempotent in the claimed sense: expanding any
strings drawn from a previous expansion's result yields a subset of that
original result set. -/
theorem C8_thm :
    (∀ A B : List PyStr, A = B → expandAliases A = expandAliases B)
    ∧ (∀ A l : List PyStr, (∀ s ∈ l, s ∈ expandAliases A) →
        expandAliases l ⊆ expandAliases A) := by
  constructor
  · intro A B h
    rw [h]
  · intro A l hl x hx
    rcases (mem_expandAliases l x).mp hx with ⟨s, hsl, hsne, hxs⟩
    rcases (mem_expandAliases A s).mp (hl s hsl) with ⟨a, haA, hane, hsa⟩
    simp only [generate_variations, Finset.mem_insert, Finset.mem_singleton] at hsa
    rcases hsa with rfl | rfl
    · rw [gv_of_lowered] at hxs
      exact (mem_expandAliases A x).mpr ⟨a, haA, hane, hxs⟩
    · rw [gv_of_cleaned] at hxs
      rw [Finset.mem_singleton] at hxs
      rw [hxs]
      refine (mem_expandAliases A _).mpr ⟨a, haA, hane, ?_⟩
      simp only [generate_variations]
      exact Finset.mem_insert_of_mem (Finset.mem_singleton_self _)

/-- **C8, witness** at `A = ["Ab"]`, re-expanding `l = ["ab"]`. -/
theorem C8_wit :
    expandAliases [strToCodes "Ab"] = expandAliases [strToCodes "Ab"]
    ∧ expandAliases [strToCodes "ab"] ⊆ expandAliases [strToCodes "Ab"] :=
  ⟨C8_thm.1 [strToCodes "Ab"] [strToCodes "Ab"] rfl,
   C8_thm.2 [strToCodes "Ab"] [strToCodes "ab"] (by decide)⟩

/-!
### Search-gateway helper lemmas
-/

theorem scrollLoop_exhausted (port : Nat) (cands : Finset Int) (net : List ReqOutcome)
    (h : (retry5 net).success = none) :
    scrollLoop port cands net =
      ⟨.ok cands, (retry5 net).sleeps,
        List.replicate (retry5 net).nreq (port, ReqPath.scrollPath)⟩ := by
  rw [scrollLoop]
  split
  · rfl
  · rename_i heq
    rw [h] at heq
    cases heq
  · rename_i heq
    rw [h] at heq
    cases heq

theorem scrollLoop_empty_page (port : Nat) (cands : Finset Int) (net : List ReqOutcome)
    (resp : SearchResp) (h : (retry5 net).success = some (some resp))
    (hh : resp.hits = []) :
    scrollLoop port cands net =
      ⟨.ok cands, (retry5 net).sleeps,
        List.replicate (retry5 net).nreq (port, ReqPath.scrollPath)⟩ := by
  rw [scrollLoop]
  split
  · rfl
  · rename_i heq
    rw [h] at heq
    cases heq
  · rename_i resp' heq
    rw [h] at heq
    cases heq
    rw [if_pos hh]

/-- Whether one response respects the protocol the code relies on: a 2xx
body must parse as JSON and every hit must carry `_source`. -/
def goodOutcome : ReqOutcome → Bool
  | .fail => true
  | .ok none => false
  | .ok (some resp) => resp.hits.all (fun h => h.isSome)

theorem extractIds_ok (hits : List Hit) (h : hits.all (fun h => h.isSome) = true) :
    ∃ s, extractIds hits = .ok s := by
  induction hits with
  | nil => exact ⟨∅, rfl⟩
  | cons a t ih =>
      simp only [List.all_cons, Bool.and_eq_true] at h
      match a, h.1 with
      | some none, _ =>
          exact ih h.2
      | some (some i), _ =>
          rcases ih h.2 with ⟨s, hs⟩
          exact ⟨insert i s, by simp [extractIds, hs, Except.map]⟩

theorem retryAux_success_mem (a left : Nat) (net : List ReqOutcome)
    (b : Option SearchResp) (h : (retryAux a left net).success = some b) :
    ReqOutcome.ok b ∈ net := by
  induction left generalizing a net with
  | zero => simp [retryAux] at h
  | succ left ih =>
      match net with
      | [] => simp [retryAux] at h
      | o :: rest =>
          match o with
          | .ok body =>
              simp only [retryAux] at h
              cases h
              exact List.mem_cons_self _ _
          | .fail =>
              by_cases hl : left = 0
              · simp [retryAux, hl] at h
              · simp only [retryAux, if_neg hl] at h
                exact List.mem_cons_of_mem _ (ih (a + 1) rest h)

theorem retryAux_rest_subset (a left : Nat) (net : List ReqOutcome) :
    ∀ x ∈ (retryAux a left net).rest, x ∈ net := by
  induction left generalizing a net with
  | zero => simp [retryAux]
  | succ left ih =>
      match net with
      | [] => simp [retryAux]
      | o :: rest =>
          match o with
          | .ok body =>
              simp only [retryAux]
              exact fun x hx => List.mem_cons_of_mem _ hx
          | .fail =>
              by_cases hl : left = 0
              · simp only [retryAux, hl, if_pos rfl]
                exact fun x hx => List.mem_cons_of_mem _ hx
              · simp only [retryAux, if_neg hl]
                exact fun x hx => List.mem_cons_of_mem _ (ih (a + 1) rest x hx)

theorem scrollLoop_good (port : Nat) :
    ∀ (n : Nat) (net : List ReqOutcome), net.length ≤ n →
      ∀ cands : Finset Int, (∀ o ∈ net, goodOutcome o = true) →
        ∃ s, (scrollLoop port cands net).result = .ok s := by
  intro n
  induction n with
  | zero =>
      intro net hn cands _
      have : net = [] := List.length_eq_zero.mp (Nat.le_zero.mp hn)
      subst this
      exact ⟨cands, by rw [scrollLoop_exhausted _ _ [] rfl]⟩
  | succ n ih =>
      intro net hn cands hgood
      rw [scrollLoop]
      split
      · exact ⟨cands, rfl⟩
      · rename_i heq
        have hmem := retryAux_success_mem 0 5 net none heq
        have := hgood _ hmem
        simp [goodOutcome] at this
      · rename_i resp heq
        by_cases hh : resp.hits = []
        · rw [if_pos hh]
          exact ⟨cands, rfl⟩
        · rw [if_neg hh]
          have hmem := retryAux_success_mem 0 5 net (some resp) heq
          have hresp := hgood _ hmem
          simp only [goodOutcome] at hresp
          rcases extractIds_ok resp.hits hresp with ⟨s, hs⟩
          rw [hs]
          have hlt := retryAux_rest_lt_of_success 0 5 net (some resp) heq
          have hle : (retryAux 0 5 net).rest.length ≤ n := by omega
          have hgood' : ∀ o ∈ (retry5 net).rest, goodOutcome o = true :=
            fun o ho => hgood o (retryAux_rest_subset 0 5 net o ho)
          rcases ih (retry5 net).rest hle (cands ∪ s) hgood' with ⟨s', hs'⟩
          exact ⟨s', hs'⟩

theorem scrollLoop_reqs (port : Nat) :
    ∀ (n : Nat) (net : List ReqOutcome), net.length ≤ n →
      ∀ (cands : Finset Int) (u : Req), u ∈ (scrollLoop port cands net).reqs →
        u = (port, ReqPath.scrollPath) := by
  intro n
  induction n with
  | zero =>
      intro net hn cands u hu
      have : net = [] := List.length_eq_zero.mp (Nat.le_zero.mp hn)
      subst this
      rw [scrollLoop_exhausted port cands [] rfl] at hu
      exact (List.eq_of_mem_replicate hu)
  | succ n ih =>
      intro net hn cands u hu
      rw [scrollLoop] at hu
      revert hu
      split
      · exact fun hu => List.eq_of_mem_replicate hu
      · exact fun hu => List.eq_of_mem_replicate hu
      · rename_i resp heq
        by_cases hh : resp.hits = []
        · rw [if_pos hh]
          exact fun hu => List.eq_of_mem_replicate hu
        · rw [if_neg hh]
          rcases hex : extractIds resp.hits with e | s
          · exact fun hu => List.eq_of_mem_replicate hu
          · intro hu
            rcases List.mem_append.mp hu with h' | h'
            · exact List.eq_of_mem_replicate h'
            · have hlt := retryAux_rest_lt_of_success 0 5 net (some resp) heq
              have hle : (retryAux 0 5 net).rest.length ≤ n := by omega
              exact ih (retry5 net).rest hle (cands ∪ s) u h'

/-- **C5.**  Retry/backoff and partial-result policy of `search_batch`:
(i) if the initial query fails on all 5 attempts, the batch returns an
empty candidate set (not an exception) after backoff sleeps of
`2**0 .. 2**3` seconds; (ii) if the initial query succeeds and a
continuation fetch then fails on all 5 attempts, the candidate IDs of the
already-fetched page are kept and pagination stops, again after sleeps
`[1, 2, 4, 8]`; (iii) a 5th-attempt success is still consumed (the run
below fails four times, succeeds on attempt 4, and completes pagination
with candidate set `{7}`). -/
theorem C5_thm :
    (∀ (batch : List PyStr) (rand : List Nat) (rest : List ReqOutcome),
      (search_batch batch rand
        (.fail :: .fail :: .fail :: .fail :: .fail :: rest)).part.result = .ok ∅
      ∧ (search_batch batch rand
        (.fail :: .fail :: .fail :: .fail :: .fail :: rest)).part.sleeps = [1, 2, 4, 8])
    ∧ (∀ (batch : List PyStr) (rand : List Nat) (rest : List ReqOutcome)
        (resp : SearchResp) (S : Finset Int), resp.hits ≠ [] → extractIds resp.hits = .ok S →
        (search_batch batch rand (.ok (some resp) ::
          .fail :: .fail :: .fail :: .fail :: .fail :: rest)).part.result = .ok S
        ∧ (search_batch batch rand (.ok (some resp) ::
          .fail :: .fail :: .fail :: .fail :: .fail :: rest)).part.sleeps = [1, 2, 4, 8])
    ∧ (∀ (batch : List PyStr) (rand : List Nat),
        (search_batch batch rand [.fail, .fail, .fail, .fail,
          .ok (some ⟨some 1, [some (some 7)]⟩),
          .ok (some ⟨none, []⟩)]).part.result = .ok {7}
        ∧ (search_batch batch rand [.fail, .fail, .fail, .fail,
          .ok (some ⟨some 1, [some (some 7)]⟩),
          .ok (some ⟨none, []⟩)]).part.sleeps = [1, 2, 4, 8]) := by
  refine ⟨fun batch rand rest => ⟨rfl, rfl⟩, ?_, ?_⟩
  · intro batch rand rest resp S hne hex
    have h0 : retry5 (.ok (some resp) ::
        .fail :: .fail :: .fail :: .fail :: .fail :: rest) =
        ⟨some (some resp), .fail :: .fail :: .fail :: .fail :: .fail :: rest, [], 1⟩ := rfl
    have hscroll := scrollLoop_exhausted
      (get_opensearch_url (rand.headD 0)) S
      (.fail :: .fail :: .fail :: .fail :: .fail :: rest) rfl
    constructor
    · simp only [search_batch, h0, hex, if_neg hne, hscroll]
    · simp only [search_batch, h0, hex, if_neg hne, hscroll]
      rfl
  · intro batch rand
    have hnet : retry5 [.fail, .fail, .fail, .fail,
        .ok (some ⟨some 1, [some (some 7)]⟩), .ok (some ⟨none, []⟩)] =
        ⟨some (some ⟨some 1, [some (some 7)]⟩), [.ok (some ⟨none, []⟩)], [1, 2, 4, 8], 5⟩ := rfl
    have hex : extractIds [(some (some 7) : Hit)] = .ok {7} := by decide
    have hscroll := scrollLoop_empty_page (get_opensearch_url (rand.head?.getD 0))
      ({7} : Finset Int) [ReqOutcome.ok (some ⟨none, []⟩)] ⟨none, []⟩ rfl rfl
    constructor
    · simp [search_batch, hnet, hex]
      rw [hscroll]
    · simp [search_batch, hnet, hex]
      rw [hscroll]
      rfl

/-- **C5, witness** for the continuation-exhaustion part, at a one-hit
first page. -/
theorem C5_wit :
    (search_batch [strToCodes "x"] [0] (.ok (some ⟨some 1, [some (some 9)]⟩) ::
      .fail :: .fail :: .fail :: .fail :: .fail :: [])).part.result = .ok {9}
    ∧ (search_batch [strToCodes "x"] [0] (.ok (some ⟨some 1, [some (some 9)]⟩) ::
      .fail :: .fail :: .fail :: .fail :: .fail :: [])).part.sleeps = [1, 2, 4, 8] :=
  C5_thm.2.1 [strToCodes "x"] [0] [] ⟨some 1, [some (some 9)]⟩ {9} (by decide) (by decide)

/-- **C3, counterexample.**  The claim states that every request — in
particular a retry after a failed attempt — independently picks a random
node.  On the code this is false: `url = get_opensearch_url()` is called
once per `search_batch`, before the retry loop.  With random draws
`[0, 1]` the first attempt fails and is retried; both requests go to port
`9500` (the draw-0 node), although the unconsumed next draw `1` denotes
node `9501` — an independent per-request pick would have moved. -/
theorem C3_cex :
    (search_batch [strToCodes "x"] [0, 1] [.fail, .ok (some ⟨none, []⟩)]).part.reqs =
      [(9500, ReqPath.searchPath), (9500, ReqPath.searchPath)]
    ∧ get_opensearch_url 1 ≠ 9500 := by decide

/-- **C3, amended.**  The backend node is drawn uniformly at random once
per `search_batch` call (`get_opensearch_url` maps the draw over the 41
configured ports); the initial query, every retry, and every
page-continuation request of that batch reuse that node: every request's
port equals the port of the single head draw, and the run depends on the
random tape only through that head draw. -/
theorem C3_thm :
    (∀ (batch : List PyStr) (rand : List Nat) (net : List ReqOutcome) (u : Req),
      u ∈ (search_batch batch rand net).part.reqs →
        u.1 = get_opensearch_url (rand.headD 0))
    ∧ (∀ (batch : List PyStr) (rand rand' : List Nat) (net : List ReqOutcome),
        rand.headD 0 = rand'.headD 0 →
          search_batch batch rand net = search_batch batch rand' net) := by
  constructor
  · intro batch rand net u hu
    revert hu
    unfold search_batch
    split
    · intro hu
      rw [List.eq_of_mem_replicate hu]
    · intro hu
      rw [List.eq_of_mem_replicate hu]
    · rename_i resp heq
      rcases hex : extractIds resp.hits with e | s
      · intro hu
        rw [List.eq_of_mem_replicate hu]
      · dsimp only
        by_cases hh : resp.hits = []
        · rw [if_pos hh]
          intro hu
          rw [List.eq_of_mem_replicate hu]
        · rw [if_neg hh]
          intro hu
          rcases List.mem_append.mp hu with h' | h'
          · rw [List.eq_of_mem_replicate h']
          · rw [scrollLoop_reqs (get_opensearch_url (rand.headD 0))
              (retry5 net).rest.length (retry5 net).rest le_rfl s u h']
  · intro batch rand rand' net h
    unfold search_batch
    rw [h]

/-- **C3, amended, witness**: a two-request run (one retry) in which both
requests use the draw-0 node, and a tape change beyond the head draw does
not affect the run. -/
theorem C3_wit :
    ((9500, ReqPath.searchPath) : Req).1 = get_opensearch_url (([0, 1] : List Nat).headD 0)
    ∧ search_batch [strToCodes "x"] [0, 1] [.fail, .ok (some ⟨none, []⟩)] =
        search_batch [strToCodes "x"] [0, 7] [.fail, .ok (some ⟨none, []⟩)] :=
  ⟨C3_thm.1 [strToCodes "x"] [0, 1] [.fail, .ok (some ⟨none, []⟩)]
      (9500, ReqPath.searchPath) (by decide),
   C3_thm.2 [strToCodes "x"] [0, 1] [0, 7] [.fail, .ok (some ⟨none, []⟩)] (by decide)⟩

/-- **C2, counterexample.**  The claim states `search_batch` never raises
past its boundary, with malformed responses and hits missing an expected
field degrading to partial results.  On the code this is false: a hit
without `_source` raises `KeyError` (line 105 evaluates
`hit["_source"]` unguarded), and a malformed (non-JSON) 2xx body makes
`res.json()` raise (line 102); neither is caught. -/
theorem C2_cex :
    (search_batch [strToCodes "x"] [0] [.ok (some ⟨none, [(none : Hit)]⟩)]).part.result =
      .error .keyError
    ∧ (search_batch [strToCodes "x"] [0] [.ok none]).part.result = .error .jsonError := by
  decide

/-- **C2, amended.**  Transient request failures never escape
`search_batch` (they degrade to empty/partial results), and a hit whose
`_source` merely lacks `candidateid` is skipped; but a malformed response
body or a hit missing `_source` raises an uncaught exception past the
boundary.  Formally: (i) on any network tape whose responses respect the
protocol (bodies parse, hits carry `_source`), the batch returns `.ok` of
some candidate set, whatever the pattern of transient failures; (ii) a
hit with `_source` but no `candidateid` is skipped, the batch proceeding
with the rest. -/
theorem C2_thm :
    (∀ (batch : List PyStr) (rand : List Nat) (net : List ReqOutcome),
      (∀ o ∈ net, goodOutcome o = true) →
        ∃ s, (search_batch batch rand net).part.result = .ok s)
    ∧ (∀ t : List Hit, extractIds (some none :: t) = extractIds t) := by
  refine ⟨?_, fun t => rfl⟩
  intro batch rand net hgood
  unfold search_batch
  split
  · exact ⟨∅, rfl⟩
  · rename_i heq
    have hmem := retryAux_success_mem 0 5 net none heq
    have := hgood _ hmem
    simp [goodOutcome] at this
  · rename_i resp heq
    have hmem := retryAux_success_mem 0 5 net (some resp) heq
    have hresp := hgood _ hmem
    simp only [goodOutcome] at hresp
    rcases extractIds_ok resp.hits hresp with ⟨s, hs⟩
    rw [hs]
    dsimp only
    by_cases hh : resp.hits = []
    · rw [if_pos hh]
      exact ⟨s, rfl⟩
    · rw [if_neg hh]
      have hgood' : ∀ o ∈ (retry5 net).rest, goodOutcome o = true :=
        fun o ho => hgood o (retryAux_rest_subset 0 5 net o ho)
      rcases scrollLoop_good (get_opensearch_url (rand.headD 0))
        (retry5 net).rest.length (retry5 net).rest le_rfl s hgood' with ⟨s', hs'⟩
      exact ⟨s', hs'⟩

/-- **C2, amended, witness** on a protocol-respecting tape with one
transient failure and one hit lacking `candidateid`. -/
theorem C2_wit :
    (∃ s, (search_batch [strToCodes "x"] [0]
      [.fail, .ok (some ⟨some 1, [some none]⟩), .ok (some ⟨none, []⟩)]).part.result = .ok s)
    ∧ extractIds (some none :: [some (some 4)]) = extractIds [some (some 4)] :=
  ⟨C2_thm.1 [strToCodes "x"] [0]
      [.fail, .ok (some ⟨some 1, [some none]⟩), .ok (some ⟨none, []⟩)] (by decide),
   C2_thm.2 [some (some 4)]⟩

/-!
### Orchestration helper lemmas
-/

theorem searchLoop_trace (env : Env) (g : Nat) :
    ∀ (n : Nat) (l : List PyStr), l.length ≤ n → ∀ (acc : List Int) (tr : List Ev),
      ∃ k, (searchLoop env g l acc tr).1 = tr ++ List.replicate k (Ev.searchEv g) := by
  intro n
  induction n with
  | zero =>
      intro l hn acc tr
      have : l = [] := List.length_eq_zero.mp (Nat.le_zero.mp hn)
      subst this
      exact ⟨0, by simp [searchLoop]⟩
  | succ n ih =>
      intro l hn acc tr
      match l with
      | [] => exact ⟨0, by simp [searchLoop]⟩
      | v :: vs =>
          rw [searchLoop]
          rcases hb : env.searchB ((v :: vs).take 50) with e | s
          · exact ⟨1, by simp⟩
          · have hlen : ((v :: vs).drop 50).length ≤ n := by
              simp at hn ⊢
              omega
            rcases ih ((v :: vs).drop 50) hlen (acc.union s) (tr ++ [Ev.searchEv g])
              with ⟨k, hk⟩
            refine ⟨k + 1, ?_⟩
            rw [hk, List.replicate_succ]
            simp

theorem runOne_error_file (env : Env) (st : WSt) (g : Nat) (e : Unit)
    (h : (runOne env st g).2 = some e) : (runOne env st g).1.file = st.file := by
  rcases hf : env.fetch g with ef | aliases
  · simp [runOne, hf]
  · rcases hsl : searchLoop env g (expandList aliases) [] [] with ⟨tr, r⟩
    rcases r with es | cands
    · simp [runOne, hf, hsl]
    · rcases hv : verify_candidateids env.verifyQ cands with ev | verified
      · simp [runOne, hf, hsl, hv]
      · rcases hi : env.insertQ g verified with ei | ui
        · simp [runOne, hf, hsl, hv, hi]
        · rcases hc : env.commitQ g with ec | uc
          · simp [runOne, hf, hsl, hv, hi, hc]
          · exfalso
            simp [runOne, hf, hsl, hv, hi, hc] at h

/-- **C4.**  Within one group's successful run the stages execute strictly
in order — the trace is some number of batch-search events, then the
verification, then the insert, then the durable commit, and only then the
checkpoint marker — and the marker line is appended exactly when the run
succeeds, with all of the group's verified membership rows already
committed; on any failing run the checkpoint file is left unchanged, so
no partially-processed persisted state is visible to a later run. -/
theorem C4_thm (env : Env) (st : WSt) (g : Nat) :
    ((runOne env st g).2 = none →
      ∃ (k : Nat) (verified : Finset Int),
        (runOne env st g).1.trace = st.trace ++ (List.replicate k (Ev.searchEv g) ++
          [Ev.verifyEv g, Ev.insertEv g, Ev.commitEv g, Ev.markEv g])
        ∧ (runOne env st g).1.file = mark_processed st.file g
        ∧ (runOne env st g).1.committed = (st.committed ∪ st.pending) ∪ memberRows g verified
        ∧ (runOne env st g).1.pending = ∅)
    ∧ (∀ e, (runOne env st g).2 = some e → (runOne env st g).1.file = st.file) := by
  refine ⟨?_, runOne_error_file env st g⟩
  intro h
  rcases hf : env.fetch g with ef | aliases
  · simp [runOne, hf] at h
  · rcases hsl : searchLoop env g (expandList aliases) [] [] with ⟨tr, r⟩
    rcases r with es | cands
    · simp [runOne, hf, hsl] at h
    · rcases hv : verify_candidateids env.verifyQ cands with ev | verified
      · simp [runOne, hf, hsl, hv] at h
      · rcases hi : env.insertQ g verified with ei | ui
        · simp [runOne, hf, hsl, hv, hi] at h
        · rcases hc : env.commitQ g with ec | uc
          · simp [runOne, hf, hsl, hv, hi, hc] at h
          · have htr : ∃ k, tr = List.replicate k (Ev.searchEv g) := by
              rcases searchLoop_trace env g (expandList aliases).length
                (expandList aliases) le_rfl [] [] with ⟨k, hk⟩
              rw [hsl] at hk
              exact ⟨k, hk⟩
            rcases htr with ⟨k, rfl⟩
            refine ⟨k, verified, ?_, ?_, ?_, ?_⟩
            · simp [runOne, hf, hsl, hv, hi, hc]
            · simp [runOne, hf, hsl, hv, hi, hc]
            · simp [runOne, hf, hsl, hv, hi, hc, Finset.union_assoc]
            · simp [runOne, hf, hsl, hv, hi, hc]

/-- An all-stores-healthy environment for the C4 witness: one alias
`"Ab"`, the search returns candidate `3`, verification confirms `{3}`,
insert and commit succeed. -/
def env0 : Env :=
  ⟨∅, fun _ => .ok [strToCodes "Ab"], fun _ => .ok [3], fun _ => .ok {3},
    fun _ _ => .ok (), fun _ => .ok ()⟩

/-- The initial worker state: empty checkpoint file, no committed or
pending rows, empty trace. -/
def st0 : WSt := ⟨[], ∅, ∅, []⟩

theorem runOne_env0_eval :
    runOne env0 st0 7 =
      (⟨mark_processed [] 7, memberRows 7 {3}, ∅,
        [Ev.searchEv 7, Ev.verifyEv 7, Ev.insertEv 7, Ev.commitEv 7, Ev.markEv 7]⟩, none) := by
  have hf : env0.fetch 7 = .ok [strToCodes "Ab"] := rfl
  have hEL : expandList [strToCodes "Ab"] = [[97, 98]] := by decide
  have hs1 : searchLoop env0 7 [[97, 98]] [] [] = ([Ev.searchEv 7], .ok [3]) := by
    rw [searchLoop]
    simp [env0]
    rw [searchLoop]
    decide
  have hv1 : verify_candidateids env0.verifyQ [3] = .ok {3} := by
    unfold verify_candidateids
    rw [verifyAux]
    simp [env0]
    rw [verifyAux]
  have hi : ∀ v, env0.insertQ 7 v = .ok () := fun _ => rfl
  have hc : env0.commitQ 7 = .ok () := rfl
  simp [runOne, hf, hEL, hs1, hv1, hi, hc, st0]

/-- **C4, witness** at the healthy environment `env0`, group 7. -/
theorem C4_wit :
    ∃ (k : Nat) (verified : Finset Int),
      (runOne env0 st0 7).1.trace = st0.trace ++ (List.replicate k (Ev.searchEv 7) ++
        [Ev.verifyEv 7, Ev.insertEv 7, Ev.commitEv 7, Ev.markEv 7])
      ∧ (runOne env0 st0 7).1.file = mark_processed st0.file 7
      ∧ (runOne env0 st0 7).1.committed = (st0.committed ∪ st0.pending) ∪ memberRows 7 verified
      ∧ (runOne env0 st0 7).1.pending = ∅ :=
  (C4_thm env0 st0 7).1 (by rw [runOne_env0_eval])

/-- An environment whose authoritative store fails every verification
query (a `StoreError`), for C1: one alias `"A"`, search returns candidate
`5`, then `verify_candidateids` raises. -/
def env1 : Env :=
  ⟨∅, fun _ => .ok [strToCodes "A"], fun _ => .ok [5], fun _ => .error (),
    fun _ _ => .ok (), fun _ => .ok ()⟩

theorem runOne_env1_eval :
    runOne env1 st0 1 = (⟨[], ∅, ∅, [Ev.searchEv 1, Ev.verifyEv 1]⟩, some ()) := by
  have hf : env1.fetch 1 = .ok [strToCodes "A"] := rfl
  have hEL : expandList [strToCodes "A"] = [[97]] := by decide
  have hs1 : searchLoop env1 1 [[97]] [] [] = ([Ev.searchEv 1], .ok [5]) := by
    rw [searchLoop]
    simp [env1]
    rw [searchLoop]
    decide
  have hv1 : verify_candidateids env1.verifyQ [5] = .error () := by
    unfold verify_candidateids
    rw [verifyAux]
    simp [env1]
  simp [runOne, hf, hEL, hs1, hv1, st0]

/-- **C1, counterexample.**  The claim states that a store error while
processing a group makes the coordinator mark that single group `Failed`
and move on to the next queued group.  On the code this is false: the
worker loop has no handler, so with groups `[1, 2]` queued and the store
failing group 1's verification, the exception propagates — the worker
stops with group 1's events only, group 2 is never searched or verified,
and nothing records any `Failed` state (the checkpoint file stays
empty). -/
theorem C1_cex :
    process_group env1 st0 [1, 2] =
      (⟨[], ∅, ∅, [Ev.searchEv 1, Ev.verifyEv 1]⟩, some ())
    ∧ Ev.searchEv 2 ∉ (process_group env1 st0 [1, 2]).1.trace
    ∧ (process_group env1 st0 [1, 2]).1.file = [] := by
  have h : process_group env1 st0 [1, 2] =
      (⟨[], ∅, ∅, [Ev.searchEv 1, Ev.verifyEv 1]⟩, some ()) := by
    have hm1 : 1 ∉ env1.processed0 := by decide
    simp [process_group, runOne_env1_eval, hm1]
  refine ⟨h, ?_, ?_⟩
  · rw [h]
    decide
  · rw [h]

/-- **C1, amended.**  A store error during a group's run propagates out of
the worker loop uncaught: the worker returns that error immediately (it
does not move on to the remaining queued groups — they are left for other
workers or a later run), and the failed group is left unmarked in the
checkpoint file; no `Failed` marking of any kind is written. -/
theorem C1_thm (env : Env) (st : WSt) (g : Nat) (rest : List Nat) (e : Unit)
    (hg : g ∉ env.processed0) (herr : (runOne env st g).2 = some e) :
    process_group env st (g :: rest) = ((runOne env st g).1, some e)
    ∧ (runOne env st g).1.file = st.file := by
  refine ⟨?_, runOne_error_file env st g e herr⟩
  rw [process_group, if_neg hg]
  rcases hro : runOne env st g with ⟨st', r⟩
  rcases r with _ | e'
  · rw [hro] at herr
    cases herr
  · have he : e' = e := rfl
    subst he
    rfl

/-- **C1, amended, witness** at `env1`, queue `[1, 2]`. -/
theorem C1_wit :
    process_group env1 st0 [1, 2] = ((runOne env1 st0 1).1, some ())
    ∧ (runOne env1 st0 1).1.file = st0.file :=
  C1_thm env1 st0 1 [2] () (by decide) (by rw [runOne_env1_eval])
